import Mathlib

/-!
Shallow embedding of the mindmapper-ai backend (src/index.js) and a
verification of spec-level claims about it.

JS strings are modelled as lists of characters (`Str`); `undefined`
values for object fields are modelled with `Option`.
-/

/-- A JS string, modelled as its character sequence. -/
abbrev Str := List Char

/-- The sentence terminators of the chunker's regex `[^.!?]+[.!?]+`. -/
def isTerm (c : Char) : Bool := c = '.' || c = '!' || c = '?'

/-- JS `String.prototype.trim` (whitespace stripped from both ends). -/
def jsTrim (s : Str) : Str :=
  ((s.dropWhile Char.isWhitespace).reverse.dropWhile Char.isWhitespace).reverse

/-- Global matching of the regex `[^.!?]+[.!?]+` over the input, as in
`text.match(/[^.!?]+[.!?]+/g)`: a match is a maximal nonempty run of
non-terminators followed by a maximal nonempty run of terminators.
`nt` is the pending run of non-terminators, `ts` the pending run of
terminators that follows it; characters before the first non-terminator
and a trailing terminator-free run never belong to a match. -/
def goMatch : Str → Str → Str → List Str
  | [], nt, ts => if ts = [] then [] else [nt ++ ts]
  | c :: rest, nt, ts =>
    if isTerm c then
      if nt = [] then goMatch rest [] []
      else goMatch rest nt (ts ++ [c])
    else
      if ts = [] then goMatch rest (nt ++ [c]) []
      else (nt ++ ts) :: goMatch rest [c] []

/-- `text.match(/[^.!?]+[.!?]+/g) || []` from `splitTextIntoChunks`. -/
def sentencesOf (text : Str) : List Str := goMatch text [] []

/-- `splitTextIntoChunks(text, chunkSize = 1000)` from src/index.js:
greedily accumulate sentences into `currentChunk` (always prefixed by a
space, as in `currentChunk += ' ' + sentence`), flushing the trimmed
buffer whenever the next sentence would overflow `chunkSize`, and
flushing a nonempty trailing buffer at the end. -/
def splitTextIntoChunks (text : Str) (chunkSize : Nat := 1000) : List Str :=
  let sentences := sentencesOf text
  let p : List Str × Str := sentences.foldl
    (fun st sentence =>
      if st.2.length + sentence.length > chunkSize then
        (st.1 ++ [jsTrim st.2], sentence)
      else
        (st.1, st.2 ++ ' ' :: sentence))
    ([], [])
  if p.2 = [] then p.1 else p.1 ++ [jsTrim p.2]

example : sentencesOf ("A. B!".data) = ["A.".data, " B!".data] := by decide

example : splitTextIntoChunks ("A. B. C.".data) 1000 = ["A.  B.  C.".data] := by decide

example : splitTextIntoChunks ("hello".data) 1000 = [] := by decide

example : splitTextIntoChunks ("AAAA. BBBB. CCCC.".data) 5
    = ["AAAA.".data, "BBBB.".data, "CCCC.".data] := by decide

example : splitTextIntoChunks ("AAAAAA.".data) 5 = [[], "AAAAAA.".data] := by decide

/-- On terminator-free input, `goMatch` produces no further match beyond
the pending one. -/
theorem goMatch_no_term (l : Str) (h : ∀ c ∈ l, isTerm c = false) (nt ts : Str) :
    goMatch l nt ts = if ts = [] then [] else [nt ++ ts] := by
  induction l generalizing nt ts with
  | nil => simp [goMatch]
  | cons c rest ih =>
    have hc : isTerm c = false := h c (List.mem_cons_self c rest)
    have hrest : ∀ d ∈ rest, isTerm d = false := fun d hd => h d (List.mem_cons_of_mem c hd)
    by_cases hts : ts = []
    · subst hts
      simp [goMatch, hc, ih hrest]
    · simp [goMatch, hc, hts, ih hrest]

/-- Appending a terminator-free suffix does not change the matched
sentences. -/
theorem goMatch_append_no_term (l suffix : Str)
    (h : ∀ c ∈ suffix, isTerm c = false) (nt ts : Str) :
    goMatch (l ++ suffix) nt ts = goMatch l nt ts := by
  induction l generalizing nt ts with
  | nil =>
    simp only [List.nil_append]
    rw [goMatch_no_term suffix h nt ts]
    simp [goMatch]
  | cons c rest ih =>
    by_cases hc : isTerm c
    · by_cases hnt : nt = [] <;> simp [goMatch, hc, hnt, ih]
    · by_cases hts : ts = [] <;> simp [goMatch, hc, hts, ih]

/-- The sentence list depends only on the text up to its last
terminator: a terminator-free suffix contributes nothing. -/
theorem sentencesOf_append_no_term (t suffix : Str)
    (h : ∀ c ∈ suffix, isTerm c = false) :
    sentencesOf (t ++ suffix) = sentencesOf t :=
  goMatch_append_no_term t suffix h [] []

/-- C10: characters after the last sentence terminator are silently
discarded by the chunker: for every text `t` and terminator-free
trailing fragment `suffix`, `splitTextIntoChunks` returns the same
chunks for `t ++ suffix` as for `t` alone, so the fragment appears in no
chunk and the chunks are built from the terminator-ended sentences only. -/
theorem splitTextIntoChunks_drops_trailing_fragment (t suffix : Str) (k : Nat)
    (h : ∀ c ∈ suffix, isTerm c = false) :
    splitTextIntoChunks (t ++ suffix) k = splitTextIntoChunks t k := by
  unfold splitTextIntoChunks
  rw [sentencesOf_append_no_term t suffix h]

/-- Witness for C10 at a concrete input: the trailing fragment `xyz` of
`A.xyz` is dropped, and the chunks are those of `A.` alone. -/
theorem splitTextIntoChunks_drops_trailing_fragment_witness :
    splitTextIntoChunks ("A.".data ++ "xyz".data) 1000 = splitTextIntoChunks ("A.".data) 1000
    ∧ splitTextIntoChunks ("A.".data) 1000 = ["A.".data] :=
  ⟨splitTextIntoChunks_drops_trailing_fragment ("A.".data) ("xyz".data) 1000 (by decide),
   by decide⟩

/-- C3 counterexample: the non-empty terminator-free text `hello` yields
zero chunks, not one — the claim that the whole text is treated as one
unit fails on the code. -/
theorem splitTextIntoChunks_no_term_counterexample :
    splitTextIntoChunks ("hello".data) 1000 = []
    ∧ (splitTextIntoChunks ("hello".data) 1000).length ≠ 1 := by
  constructor <;> decide

/-- C3 (amended): a non-empty input text containing no sentence
terminator produces zero chunks — the whole text is silently discarded
rather than kept as a single unit. -/
theorem splitTextIntoChunks_no_term (text : Str) (k : Nat)
    (_hne : text ≠ []) (h : ∀ c ∈ text, isTerm c = false) :
    splitTextIntoChunks text k = [] := by
  unfold splitTextIntoChunks
  have hs : sentencesOf text = [] := by
    unfold sentencesOf
    rw [goMatch_no_term text h [] []]
    simp
  simp [hs]

/-- Witness for the amended C3 at the concrete input `hello`. -/
theorem splitTextIntoChunks_no_term_witness :
    ("hello".data ≠ ([] : Str)) ∧ splitTextIntoChunks ("hello".data) 1000 = [] :=
  ⟨by decide, splitTextIntoChunks_no_term ("hello".data) 1000 (by decide) (by decide)⟩

/-- C4 evaluated at the failing input: when the first sentence is longer
than `maxChunkSize`, the code flushes the still-empty buffer and returns
an empty chunk before the long sentence, contradicting the claim that no
chunk is empty. -/
theorem splitTextIntoChunks_empty_chunk_eval :
    splitTextIntoChunks ("AAAAAA.".data) 5 = [[], "AAAAAA.".data]
    ∧ [] ∈ splitTextIntoChunks ("AAAAAA.".data) 5 := by
  constructor <;> decide

/-- A topic-hierarchy node. Nodes parsed from LLM JSON carry only
`title`, `content` and `children`; `id` and `level` are `undefined`
(modelled as `none`) until the merger assigns them, and it only does so
for the synthesized root and its direct children. -/
inductive TopicNode where
  | mk (id : Option Str) (title : Str) (content : Str) (level : Option Nat)
      (children : List TopicNode) : TopicNode

/-- The `id` field of a topic node. -/
def TopicNode.id : TopicNode → Option Str
  | .mk i _ _ _ _ => i

/-- The `title` field of a topic node. -/
def TopicNode.title : TopicNode → Str
  | .mk _ t _ _ _ => t

/-- The `content` field of a topic node. -/
def TopicNode.content : TopicNode → Str
  | .mk _ _ c _ _ => c

/-- The `level` field of a topic node. -/
def TopicNode.level : TopicNode → Option Nat
  | .mk _ _ _ l _ => l

/-- The `children` field of a topic node. -/
def TopicNode.children : TopicNode → List TopicNode
  | .mk _ _ _ _ ch => ch

/-- Replace the `content` field, as in `topics.content = summary`. -/
def TopicNode.withContent : TopicNode → Str → TopicNode
  | .mk i t _ l ch, c => .mk i t c l ch

/-- `toLowerCase` on a title, for the merger's case-insensitive match. -/
def toLowerStr (s : Str) : Str := s.map Char.toLower

/-- The merged-child id `topic-<n>`. -/
def topicId (n : Nat) : Str := "topic-".data ++ Nat.toDigits 10 n

/-- One step of the merger's inner `forEach`: push `child` onto the
merged children unless a child with case-insensitively equal title is
already present; a pushed child gets id `topic-<position>`, `level = 1`,
and keeps its own nested children (`child.children || []`). -/
def addChild (acc : List TopicNode) (child : TopicNode) : List TopicNode :=
  if acc.any (fun c => toLowerStr c.title = toLowerStr child.title) then acc
  else acc ++ [TopicNode.mk (some (topicId (acc.length + 1))) child.title child.content
      (some 1) child.children]

/-- One iteration of the merger's outer `forEach`: the root content is
set from `topic.content` while it is still falsy (`!merged.content`),
and the tree's direct children are pushed through `addChild`. -/
def mergeStep (merged topic : TopicNode) : TopicNode :=
  TopicNode.mk merged.id merged.title
    (if merged.content.isEmpty then topic.content else merged.content)
    merged.level
    (topic.children.foldl addChild merged.children)

/-- `mergeTopics(topics)` from src/index.js: fold the input trees over a
synthesized root (`id = "root"`, `title = "Main Topic"`, empty content,
`level = 0`). -/
def mergeTopics (topics : List TopicNode) : TopicNode :=
  topics.foldl mergeStep
    (TopicNode.mk (some ("root".data)) ("Main Topic".data) [] (some 0) [])

/-- First-occurrence-wins de-duplication by lowered title: `seen` is the
set of lowered titles already kept. This is the specification-side
description of the merger's duplicate policy. -/
def dedupAcc (seen : List Str) : List TopicNode → List TopicNode
  | [] => []
  | c :: rest =>
    if toLowerStr c.title ∈ seen then dedupAcc seen rest
    else c :: dedupAcc (toLowerStr c.title :: seen) rest

/-- Assign sequential ids `topic-<k+1>, topic-<k+2>, ...` and `level = 1`
to a list of children, keeping titles, contents and nested children. -/
def annotateFrom (k : Nat) : List TopicNode → List TopicNode
  | [] => []
  | c :: rest =>
    TopicNode.mk (some (topicId (k + 1))) c.title c.content (some 1) c.children
      :: annotateFrom (k + 1) rest

/-- `dedupAcc` is unchanged under replacing `seen` by a list with the
same members. -/
theorem dedupAcc_congr (l : List TopicNode) (seen₁ seen₂ : List Str)
    (h : ∀ s, s ∈ seen₁ ↔ s ∈ seen₂) :
    dedupAcc seen₁ l = dedupAcc seen₂ l := by
  induction l generalizing seen₁ seen₂ with
  | nil => rfl
  | cons c rest ih =>
    by_cases hm : toLowerStr c.title ∈ seen₁
    · rw [dedupAcc, if_pos hm, dedupAcc, if_pos ((h _).mp hm), ih seen₁ seen₂ h]
    · rw [dedupAcc, if_neg hm, dedupAcc, if_neg (fun hx => hm ((h _).mpr hx))]
      have h2 : ∀ s, s ∈ toLowerStr c.title :: seen₁ ↔ s ∈ toLowerStr c.title :: seen₂ := by
        intro s
        simp [h s]
      rw [ih _ _ h2]

/-- Folding `addChild` over a list of children extends the accumulator
by the annotated, first-wins-deduplicated survivors. -/
theorem foldl_addChild (l : List TopicNode) (A : List TopicNode) :
    l.foldl addChild A
      = A ++ annotateFrom A.length (dedupAcc (A.map (fun c => toLowerStr c.title)) l) := by
  induction l generalizing A with
  | nil => simp [dedupAcc, annotateFrom]
  | cons c rest ih =>
    by_cases hm : toLowerStr c.title ∈ A.map (fun d => toLowerStr d.title)
    · have hany : A.any (fun d => toLowerStr d.title = toLowerStr c.title) = true := by
        rw [List.any_eq_true]
        rcases List.mem_map.mp hm with ⟨d, hd, hde⟩
        exact ⟨d, hd, by simp [hde]⟩
      rw [List.foldl_cons, addChild, if_pos hany, ih, dedupAcc, if_pos hm]
    · have hany : A.any (fun d => toLowerStr d.title = toLowerStr c.title) = false := by
        rw [List.any_eq_false]
        intro d hd
        simp only [decide_eq_true_eq]
        intro hde
        exact hm (List.mem_map.mpr ⟨d, hd, hde⟩)
      rw [List.foldl_cons, addChild, hany, if_neg (by simp), ih, dedupAcc, if_neg hm,
        annotateFrom, List.append_assoc, List.singleton_append]
      congr 1
      congr 1
      rw [List.length_append, List.length_singleton, List.map_append]
      rw [show List.map (fun d => toLowerStr d.title)
            [TopicNode.mk (some (topicId (A.length + 1))) c.title c.content (some 1)
              c.children] = [toLowerStr c.title] from by simp [TopicNode.title]]
      exact congrArg (annotateFrom (A.length + 1))
        (dedupAcc_congr rest _ _ (fun s => by simp [or_comm]))

/-- Closed form of the merger's fold from an arbitrary starting record:
`id`, `title` and `level` are untouched, the content becomes the first
non-empty input content when the start content is empty, and the
children accumulate through `addChild` over all direct children in
order. -/
theorem foldl_mergeStep (ts : List TopicNode) (i : Option Str) (tt cnt : Str)
    (lv : Option Nat) (ch : List TopicNode) :
    ts.foldl mergeStep (TopicNode.mk i tt cnt lv ch)
      = TopicNode.mk i tt
          (if cnt.isEmpty then
            (((ts.map TopicNode.content).find? (fun c => !c.isEmpty)).getD cnt)
          else cnt)
          lv
          ((List.flatten (ts.map TopicNode.children)).foldl addChild ch) := by
  induction ts generalizing cnt ch with
  | nil =>
    simp only [List.foldl_nil, List.map_nil, List.find?_nil, Option.getD_none, List.flatten,
      List.foldl_nil]
    cases hc : cnt.isEmpty <;> simp
  | cons t₀ ts ih =>
    rw [List.foldl_cons]
    rw [show mergeStep (TopicNode.mk i tt cnt lv ch) t₀
        = TopicNode.mk i tt (if cnt.isEmpty then t₀.content else cnt) lv
            (t₀.children.foldl addChild ch) from rfl]
    rw [ih]
    rw [List.map_cons, List.map_cons, List.flatten_cons, List.foldl_append]
    congr 1
    by_cases hc : cnt.isEmpty
    · rw [if_pos hc, if_pos hc]
      have hcnil : cnt = [] := List.isEmpty_iff.mp hc
      by_cases ht : t₀.content.isEmpty
      · have htnil : t₀.content = [] := List.isEmpty_iff.mp ht
        rw [if_pos ht, List.find?_cons_of_neg _ (by simp [ht]), hcnil, htnil]
      · rw [if_neg ht, List.find?_cons_of_pos _ (by simp [ht]), Option.getD_some]
    · rw [if_neg hc, if_neg hc, if_neg hc]

/-- The merged children are exactly the first-wins deduplication of the
concatenated direct children of the inputs, annotated with sequential
ids and `level = 1`. -/
theorem mergeTopics_children_eq (ts : List TopicNode) :
    (mergeTopics ts).children
      = annotateFrom 0 (dedupAcc [] (List.flatten (ts.map TopicNode.children))) := by
  rw [mergeTopics, foldl_mergeStep]
  rw [TopicNode.children, foldl_addChild]
  simp

/-- C6: the merged root's content is the content of the first input tree
whose content is non-empty (first-write-wins), and the empty string when
every input content is empty: it equals the first non-empty entry of the
input contents in order, with empty-string default. -/
theorem mergeTopics_content_first_nonempty (ts : List TopicNode) :
    (mergeTopics ts).content
      = (((ts.map TopicNode.content).find? (fun c => !c.isEmpty)).getD []) := by
  rw [mergeTopics, foldl_mergeStep]
  rw [TopicNode.content]
  simp

/-- A survivor of `dedupAcc` comes from the input list and its lowered
title was not among the already-seen titles. -/
theorem mem_dedupAcc (l : List TopicNode) (seen : List Str) (c : TopicNode)
    (hc : c ∈ dedupAcc seen l) : c ∈ l ∧ toLowerStr c.title ∉ seen := by
  induction l generalizing seen with
  | nil => simp [dedupAcc] at hc
  | cons d rest ih =>
    by_cases hm : toLowerStr d.title ∈ seen
    · rw [dedupAcc, if_pos hm] at hc
      rcases ih seen hc with ⟨h1, h2⟩
      exact ⟨List.mem_cons_of_mem d h1, h2⟩
    · rw [dedupAcc, if_neg hm] at hc
      rcases List.mem_cons.mp hc with hcd | hcc
      · subst hcd
        exact ⟨List.mem_cons_self c rest, hm⟩
      · rcases ih _ hcc with ⟨h1, h2⟩
        refine ⟨List.mem_cons_of_mem d h1, fun hx => h2 ?_⟩
        exact List.mem_cons_of_mem _ hx

/-- The survivors of `dedupAcc` have pairwise distinct lowered titles. -/
theorem dedupAcc_pairwise (l : List TopicNode) (seen : List Str) :
    List.Pairwise (fun a b => toLowerStr a.title ≠ toLowerStr b.title)
      (dedupAcc seen l) := by
  induction l generalizing seen with
  | nil => simp [dedupAcc]
  | cons d rest ih =>
    by_cases hm : toLowerStr d.title ∈ seen
    · rw [dedupAcc, if_pos hm]
      exact ih seen
    · rw [dedupAcc, if_neg hm]
      refine List.Pairwise.cons (fun b hb => ?_) (ih _)
      have := (mem_dedupAcc rest _ b hb).2
      intro he
      exact this (by rw [← he]; exact List.mem_cons_self _ _)

/-- `annotateFrom` preserves the length of the list. -/
theorem annotateFrom_length (k : Nat) (l : List TopicNode) :
    (annotateFrom k l).length = l.length := by
  induction l generalizing k with
  | nil => rfl
  | cons c rest ih => simp [annotateFrom, ih]

/-- The ids produced by `annotateFrom k` are `topic-(k+1), topic-(k+2), …`
in order. -/
theorem annotateFrom_map_id (k : Nat) (l : List TopicNode) :
    (annotateFrom k l).map TopicNode.id
      = (List.range l.length).map (fun i => some (topicId (k + i + 1))) := by
  induction l generalizing k with
  | nil => rfl
  | cons c rest ih =>
    rw [annotateFrom, List.map_cons, List.length_cons, List.range_succ_eq_map,
      List.map_cons, List.map_map, ih]
    congr 1
    refine List.map_congr_left fun i _ => ?_
    have : k + 1 + i + 1 = k + (i + 1) + 1 := by omega
    simp [Function.comp, this]

/-- Every node produced by `annotateFrom` has `level = 1`. -/
theorem annotateFrom_map_level (k : Nat) (l : List TopicNode) :
    (annotateFrom k l).map TopicNode.level = List.replicate l.length (some 1) := by
  induction l generalizing k with
  | nil => rfl
  | cons c rest ih => simp [annotateFrom, ih, TopicNode.level, List.replicate]

/-- `annotateFrom` keeps title, content and nested children of each
entry. -/
theorem mem_annotateFrom (k : Nat) (l : List TopicNode) (d : TopicNode)
    (hd : d ∈ annotateFrom k l) :
    ∃ c ∈ l, d.title = c.title ∧ d.content = c.content ∧ d.children = c.children := by
  induction l generalizing k with
  | nil => simp [annotateFrom] at hd
  | cons c rest ih =>
    rw [annotateFrom] at hd
    rcases List.mem_cons.mp hd with hdc | hdd
    · subst hdc
      exact ⟨c, List.mem_cons_self c rest, rfl, rfl, rfl⟩
    · rcases ih (k + 1) hdd with ⟨e, he, h1, h2, h3⟩
      exact ⟨e, List.mem_cons_of_mem c he, h1, h2, h3⟩

/-- `annotateFrom` keeps lowered titles, hence preserves pairwise
distinctness of lowered titles. -/
theorem annotateFrom_pairwise (k : Nat) (l : List TopicNode)
    (h : List.Pairwise (fun a b => toLowerStr a.title ≠ toLowerStr b.title) l) :
    List.Pairwise (fun a b => toLowerStr a.title ≠ toLowerStr b.title)
      (annotateFrom k l) := by
  induction l generalizing k with
  | nil => simp [annotateFrom]
  | cons c rest ih =>
    rw [annotateFrom]
    rcases List.pairwise_cons.mp h with ⟨hc, hrest⟩
    refine List.Pairwise.cons (fun b hb => ?_) (ih (k + 1) hrest)
    rcases mem_annotateFrom _ _ b hb with ⟨e, he, h1, _, _⟩
    rw [TopicNode.title, h1]
    exact hc e he

/-- C5: the merged root's direct children have pairwise distinct
case-insensitive titles (first occurrence wins — they are exactly the
first-wins deduplication of the concatenated input children), their ids
are exactly `topic-1 .. topic-n` in first-seen order, they all have
`level = 1`, and each keeps the title, content and nested children of
the input child it came from. -/
theorem mergeTopics_children_spec (ts : List TopicNode) :
    (mergeTopics ts).children
        = annotateFrom 0 (dedupAcc [] (List.flatten (ts.map TopicNode.children)))
    ∧ List.Pairwise (fun a b => toLowerStr a.title ≠ toLowerStr b.title)
        (mergeTopics ts).children
    ∧ ((mergeTopics ts).children.map TopicNode.id
        = (List.range (mergeTopics ts).children.length).map (fun i => some (topicId (i + 1))))
    ∧ ((mergeTopics ts).children.map TopicNode.level
        = List.replicate (mergeTopics ts).children.length (some 1))
    ∧ ∀ c ∈ (mergeTopics ts).children, ∃ t ∈ ts, ∃ ch ∈ t.children,
        c.title = ch.title ∧ c.content = ch.content ∧ c.children = ch.children := by
  have hch := mergeTopics_children_eq ts
  refine ⟨hch, ?_, ?_, ?_, ?_⟩
  · rw [hch]
    exact annotateFrom_pairwise 0 _ (dedupAcc_pairwise _ [])
  · rw [hch, annotateFrom_map_id, annotateFrom_length]
    exact List.map_congr_left fun i _ => by rw [Nat.zero_add]
  · rw [hch, annotateFrom_map_level, annotateFrom_length]
  · intro c hc
    rw [hch] at hc
    rcases mem_annotateFrom _ _ c hc with ⟨e, he, h1, h2, h3⟩
    rcases (mem_dedupAcc _ _ e he).1 with hel
    rcases List.mem_flatten.mp hel with ⟨l, hl, hel2⟩
    rcases List.mem_map.mp hl with ⟨t, ht, rfl⟩
    exact ⟨t, ht, e, hel2, h1, h2, h3⟩

/-- Witness for C5 at a concrete input: merging a single tree with one
child titled `A` yields one merged child that keeps title, content and
children of that input child. -/
theorem mergeTopics_children_spec_witness :
    TopicNode.mk (some (topicId 1)) ("A".data) ("a".data) (some 1) []
        ∈ (mergeTopics [TopicNode.mk none ("T".data) ("x".data) none
            [TopicNode.mk none ("A".data) ("a".data) none []]]).children
    ∧ ∃ t ∈ [TopicNode.mk none ("T".data) ("x".data) none
          [TopicNode.mk none ("A".data) ("a".data) none []]],
        ∃ ch ∈ t.children,
          (TopicNode.mk (some (topicId 1)) ("A".data) ("a".data) (some 1) []).title = ch.title
          ∧ (TopicNode.mk (some (topicId 1)) ("A".data) ("a".data) (some 1) []).content
              = ch.content
          ∧ (TopicNode.mk (some (topicId 1)) ("A".data) ("a".data) (some 1) []).children
              = ch.children := by
  have hmem : TopicNode.mk (some (topicId 1)) ("A".data) ("a".data) (some 1) []
      ∈ (mergeTopics [TopicNode.mk none ("T".data) ("x".data) none
          [TopicNode.mk none ("A".data) ("a".data) none []]]).children := by
    rw [show (mergeTopics [TopicNode.mk none ("T".data) ("x".data) none
        [TopicNode.mk none ("A".data) ("a".data) none []]]).children
      = [TopicNode.mk (some (topicId 1)) ("A".data) ("a".data) (some 1) []] from rfl]
    exact List.mem_singleton_self _
  exact ⟨hmem,
    (mergeTopics_children_spec [TopicNode.mk none ("T".data) ("x".data) none
      [TopicNode.mk none ("A".data) ("a".data) none []]]).2.2.2.2 _ hmem⟩

/-- JS truthiness of a possibly-undefined string (`undefined` and the
empty string are falsy). -/
def jsTruthy : Option Str → Bool
  | none => false
  | some s => !s.isEmpty

/-- JS template-string interpolation of a possibly-undefined string:
`undefined` prints as the text `undefined`. -/
def jsStr : Option Str → Str
  | none => "undefined".data
  | some s => s

/-- An `{x, y}` position. -/
structure XY where
  x : Int
  y : Int
deriving DecidableEq

/-- The `data` record of an emitted mind-map node. -/
structure MindMapNodeData where
  label : Str
  level : Option Nat
  content : Str
  isExpanded : Bool
deriving DecidableEq

/-- An emitted mind-map node (`nodes.push(nodeData)` in
`hierarchyToMindMap`). -/
structure MindMapNode where
  id : Option Str
  type : Str
  position : XY
  data : MindMapNodeData
deriving DecidableEq

/-- The level-derived `style` of an emitted edge. -/
structure EdgeStyle where
  stroke : Str
  strokeWidth : Nat
deriving DecidableEq

/-- An emitted mind-map edge. -/
structure MindMapEdge where
  id : Str
  source : Option Str
  target : Option Str
  type : Str
  animated : Bool
  style : EdgeStyle
deriving DecidableEq

/-- The `{ nodes, edges }` graph returned by `hierarchyToMindMap`. -/
structure MindMap where
  nodes : List MindMapNode
  edges : List MindMapEdge
deriving DecidableEq

mutual
/-- `processNode(node, parentId, x, y)` from `hierarchyToMindMap`:
emit the node itself, then — only when `parentId` is truthy — one edge
from the parent, then recurse into the children, which start at
`x − (children.length − 1) · 200 / 2` and advance by `childSpacing = 200`
(i.e. child `index` sits at `startX + index · 200`), all at `y + 150`. -/
def processNode : TopicNode → Option Str → Int → Int → List MindMapNode × List MindMapEdge
  | TopicNode.mk i title content lvl children, parentId, x, y =>
    let nodeData : MindMapNode :=
      { id := i, type := "custom".data, position := ⟨x, y⟩,
        data := { label := title, level := lvl, content := content, isExpanded := true } }
    let selfEdges : List MindMapEdge :=
      if jsTruthy parentId then
        [{ id := jsStr parentId ++ '-' :: jsStr i, source := parentId, target := i,
           type := "smoothstep".data, animated := true,
           style := { stroke := if lvl = some 1 then "#10b981".data else "#f97316".data,
                      strokeWidth := if lvl = some 1 then 3 else 2 } }]
      else []
    let startX : Int := x - (Int.ofNat children.length - 1) * 200 / 2
    let sub := processChildren children i startX (y + 150)
    (nodeData :: sub.1, selfEdges ++ sub.2)

/-- The `children.forEach` loop of `processNode`, with the running child
x-coordinate advanced by 200 per child. -/
def processChildren : List TopicNode → Option Str → Int → Int → List MindMapNode × List MindMapEdge
  | [], _, _, _ => ([], [])
  | c :: rest, pid, cx, cy =>
    let r1 := processNode c pid cx cy
    let r2 := processChildren rest pid (cx + 200) cy
    (r1.1 ++ r2.1, r1.2 ++ r2.2)
end

/-- `hierarchyToMindMap(hierarchy)` from src/index.js: the recursion
starts at the root with no parent id and position `(0, 0)`. -/
def hierarchyToMindMap (hierarchy : TopicNode) : MindMap :=
  let r := processNode hierarchy none 0 0
  { nodes := r.1, edges := r.2 }

mutual
/-- Layout model taken from the specification text: pre-order emission
of `(id, x, y)` placements, the root of a call at `(x, y)` and the
children of a node with `k` children at
`x − (k − 1) · 100 + index · 200` and `y + 150`. -/
def layoutSpecNode : TopicNode → Int → Int → List (Option Str × Int × Int)
  | TopicNode.mk i _ _ _ children, x, y =>
    (i, x, y) ::
      layoutSpecChildren children (x - (Int.ofNat children.length - 1) * 100) (y + 150)

/-- Children placements for `layoutSpecNode`: child `index` sits 200
units right of its predecessor, unrolling
`x − (k − 1) · 100 + index · 200`. -/
def layoutSpecChildren : List TopicNode → Int → Int → List (Option Str × Int × Int)
  | [], _, _ => []
  | c :: rest, cx, cy => layoutSpecNode c cx cy ++ layoutSpecChildren rest (cx + 200) cy
end

/-- The placement `(id, x, y)` of an emitted mind-map node. -/
def nodePlacement (n : MindMapNode) : Option Str × Int × Int :=
  (n.id, n.position.x, n.position.y)

/-- The starting x offset computed by the code, `(k − 1) · 200 / 2`,
equals the specification's `(k − 1) · 100` over the integers. -/
theorem startX_div (m : Int) : m * 200 / 2 = m * 100 := by omega

/-- The nodes emitted by `processNode` are exactly the pre-order
placements of the specification layout. -/
theorem processNode_nodes_spec (node : TopicNode) (pid : Option Str) (x y : Int) :
    (processNode node pid x y).1.map nodePlacement = layoutSpecNode node x y := by
  refine processNode.induct
    (fun node pid x y =>
      (processNode node pid x y).1.map nodePlacement = layoutSpecNode node x y)
    (fun cs pid cx cy =>
      (processChildren cs pid cx cy).1.map nodePlacement = layoutSpecChildren cs cx cy)
    ?_ ?_ ?_ node pid x y
  · intro i title content lvl children parentId x y startX ih
    have h1 : startX = x - (Int.ofNat children.length - 1) * 200 / 2 := rfl
    have harith : x - (Int.ofNat children.length - 1) * 200 / 2
        = x - (Int.ofNat children.length - 1) * 100 := by omega
    rw [h1, harith] at ih
    simp only [processNode, layoutSpecNode, List.map_cons, nodePlacement]
    rw [harith]
    exact congrArg _ ih
  · intro pid cx cy
    simp [processChildren, layoutSpecChildren]
  · intro c rest pid cx cy ih1 ih2
    simp [processChildren, layoutSpecChildren, ih1, ih2]

/-- C7: the graph layout places the root at `(0, 0)` and emits nodes in
pre-order, each child of a node with `k` children placed at
`x = parentX − (k − 1) · 100 + index · 200`, `y = parentY + 150`: the
emitted placements coincide with the specification layout
`layoutSpecNode` started at the origin. -/
theorem hierarchyToMindMap_positions (hierarchy : TopicNode) :
    (hierarchyToMindMap hierarchy).nodes.map nodePlacement
      = layoutSpecNode hierarchy 0 0 :=
  processNode_nodes_spec hierarchy none 0 0

example :
    (hierarchyToMindMap (TopicNode.mk (some ("root".data)) [] [] (some 0)
        [TopicNode.mk (some ("topic-1".data)) [] [] (some 1) [],
         TopicNode.mk (some ("topic-2".data)) [] [] (some 1) []])).nodes.map nodePlacement
      = [(some ("root".data), 0, 0),
         (some ("topic-1".data), -100, 150),
         (some ("topic-2".data), 100, 150)] := by decide

/-- The depth-4 parsed input tree `Main → A → B → C` used to refute the
edge-count invariant. -/
def deepTree : TopicNode :=
  TopicNode.mk none ("Main".data) [] none
    [TopicNode.mk none ("A".data) [] none
      [TopicNode.mk none ("B".data) [] none
        [TopicNode.mk none ("C".data) [] none []]]]

/-- C1 evaluated at the failing input: merging `deepTree` and laying it
out yields 4 nodes but only 2 edges — the node `B` below level 1 has no
id, so its child `C` gets a falsy `parentId` and no edge is emitted,
violating `edges.length == nodes.length - 1`. -/
theorem hierarchyToMindMap_edge_count_eval :
    (hierarchyToMindMap (mergeTopics [deepTree])).nodes.length = 4
    ∧ (hierarchyToMindMap (mergeTopics [deepTree])).edges.length = 2
    ∧ (hierarchyToMindMap (mergeTopics [deepTree])).edges.length
        ≠ (hierarchyToMindMap (mergeTopics [deepTree])).nodes.length - 1 := by
  refine ⟨?_, ?_, ?_⟩ <;> decide

/-- The depth-3 parsed input tree `Main → A → {B, C}` used to refute id
uniqueness: both `B` and `C` end up below level 1 with no id. -/
def wideTree : TopicNode :=
  TopicNode.mk none ("Main".data) [] none
    [TopicNode.mk none ("A".data) [] none
      [TopicNode.mk none ("B".data) [] none [],
       TopicNode.mk none ("C".data) [] none []]]

/-- C2 evaluated at the failing input: after merging `wideTree` and
laying it out, the emitted node ids are
`[root, topic-1, undefined, undefined]` — not pairwise distinct. -/
theorem hierarchyToMindMap_duplicate_ids_eval :
    ((hierarchyToMindMap (mergeTopics [wideTree])).nodes.map MindMapNode.id
        = [some ("root".data), some ("topic-".data ++ Nat.toDigits 10 1), none, none])
    ∧ ¬ ((hierarchyToMindMap (mergeTopics [wideTree])).nodes.map MindMapNode.id).Nodup := by
  refine ⟨?_, ?_⟩ <;> decide

/-- A thrown JS error, reduced to the fields the endpoint reports. -/
structure JsError where
  name : Str
  message : Str

/-- The outcome of one chunk's LLM round trip in `extractTopics`:
`Except.error` when `model.generateContent` (or response handling)
throws — which propagates out of the loop — and `Except.ok none` when
the call succeeds but `JSON.parse` fails, which is caught locally and
contributes nothing. -/
abbrev ChunkOutcome := Except JsError (Option TopicNode)

/-- The `for` loop of `extractTopics`: collect the successfully parsed
per-chunk trees in chunk order, skipping parse failures; a thrown error
aborts the whole extraction. -/
def collectTopics : List ChunkOutcome → Except JsError (List TopicNode)
  | [] => Except.ok []
  | Except.error e :: _ => Except.error e
  | Except.ok none :: rest => collectTopics rest
  | Except.ok (some t) :: rest => (collectTopics rest).map (fun l => t :: l)

/-- `extractTopics`, as a function of the per-chunk outcomes: the
surviving trees are merged. -/
def extractTopicsPure (outs : List ChunkOutcome) : Except JsError TopicNode :=
  (collectTopics outs).map mergeTopics

/-- The outcomes of the external calls made while serving one
`POST /api/process` request. -/
structure Effects where
  pageText : Except JsError Str
  summary : Except JsError Str
  chunkOutcomes : List ChunkOutcome

/-- An HTTP response of the endpoint: `200` with the graph, `400` with
an `{error}` body, or `500` with an `{error, details, type}` body in
which any field with value `undefined` (modelled `none`) is absent. -/
inductive ApiResponse where
  | ok (graph : MindMap)
  | badRequest (error : Str)
  | serverError (error : Str) (details : Str) (type : Option Str)
deriving DecidableEq

/-- `app.post('/api/process')` from src/index.js as a function of the
request and the external-call outcomes: `400` on falsy content; `500`
with `{error: 'Server configuration error', details: 'API key is not
configured'}` (and no `type` field) on a falsy `GEMINI_API_KEY`;
otherwise run page extraction (for `type === 'url'`), summary and topic
extraction, overwrite the merged root's content with the summary, lay
the tree out and return `200`; any thrown error is caught and mapped to
`500` with `{error: 'Failed to process content', details: e.message,
type: e.name}`. -/
def processRequest (content : Str) (reqType : Option Str) (apiKey : Option Str)
    (fx : Effects) : ApiResponse :=
  if content.isEmpty then ApiResponse.badRequest ("Content is required".data)
  else if !(jsTruthy apiKey) then
    ApiResponse.serverError ("Server configuration error".data)
      ("API key is not configured".data) none
  else
    let textE := if reqType = some ("url".data) then fx.pageText else Except.ok content
    match textE with
    | Except.error e =>
        ApiResponse.serverError ("Failed to process content".data) e.message (some e.name)
    | Except.ok _ =>
      match fx.summary with
      | Except.error e =>
          ApiResponse.serverError ("Failed to process content".data) e.message (some e.name)
      | Except.ok summary =>
        match extractTopicsPure fx.chunkOutcomes with
        | Except.error e =>
            ApiResponse.serverError ("Failed to process content".data) e.message (some e.name)
        | Except.ok topics =>
            ApiResponse.ok (hierarchyToMindMap (topics.withContent summary))

/-- Whether a response's JSON body carries a `type` field. -/
def responseCarriesType : ApiResponse → Bool
  | ApiResponse.serverError _ _ (some _) => true
  | _ => false

/-- A fixed set of external outcomes used for concrete evaluations. -/
def fx0 : Effects := ⟨Except.ok [], Except.ok [], []⟩

/-- All-parse-failure outcomes yield no topics. -/
theorem collectTopics_all_failed (outs : List ChunkOutcome)
    (h : ∀ o ∈ outs, o = Except.ok none) : collectTopics outs = Except.ok [] := by
  induction outs with
  | nil => rfl
  | cons o rest ih =>
    have ho : o = Except.ok none := h o (List.mem_cons_self o rest)
    subst ho
    rw [collectTopics]
    exact ih fun o hm => h o (List.mem_cons_of_mem _ hm)

/-- C8: a chunk whose response fails to parse contributes nothing while
extraction continues with the remaining chunks
(`collectTopics` skips an `ok none` outcome wherever it occurs), and
when every chunk fails to parse the extractor returns the bare merged
root with empty children while the endpoint still answers `200` with a
single-node, zero-edge graph. -/
theorem processRequest_parse_failure_policy
    (pre post : List ChunkOutcome) (content : Str) (apiKey : Option Str)
    (fx : Effects) (s : Str) :
    collectTopics (pre ++ Except.ok none :: post) = collectTopics (pre ++ post)
    ∧ (content ≠ [] → jsTruthy apiKey = true → fx.summary = Except.ok s →
        (∀ o ∈ fx.chunkOutcomes, o = Except.ok none) →
        extractTopicsPure fx.chunkOutcomes = Except.ok (mergeTopics [])
        ∧ (mergeTopics []).children = []
        ∧ processRequest content none apiKey fx
            = ApiResponse.ok (hierarchyToMindMap ((mergeTopics []).withContent s))
        ∧ (hierarchyToMindMap ((mergeTopics []).withContent s)).nodes.length = 1
        ∧ (hierarchyToMindMap ((mergeTopics []).withContent s)).edges = []) := by
  constructor
  · induction pre with
    | nil => rw [List.nil_append, List.nil_append, collectTopics]
    | cons o pre ih =>
      match o with
      | Except.error e => rw [List.cons_append, List.cons_append, collectTopics, collectTopics]
      | Except.ok none =>
          rw [List.cons_append, List.cons_append, collectTopics, collectTopics, ih]
      | Except.ok (some t) =>
          rw [List.cons_append, List.cons_append, collectTopics, collectTopics, ih]
  · intro hc hk hs hall
    have hext : extractTopicsPure fx.chunkOutcomes = Except.ok (mergeTopics []) := by
      rw [extractTopicsPure, collectTopics_all_failed fx.chunkOutcomes hall, Except.map]
    refine ⟨hext, rfl, ?_, ?_, ?_⟩
    · rw [processRequest]
      rw [if_neg (by simp [List.isEmpty_iff, hc]), if_neg (by simp [hk])]
      simp only [reduceCtorEq, if_false, hs, hext]
    · rfl
    · rfl

/-- Witness for C8 at concrete inputs: a parse failure between two
outcomes is skipped, and a request whose two chunks both fail to parse
still gets a `200` with a root-only, edge-free graph. -/
theorem processRequest_parse_failure_policy_witness :
    collectTopics ([Except.ok (some (TopicNode.mk none ("T".data) [] none []))]
          ++ Except.ok none :: [])
        = collectTopics ([Except.ok (some (TopicNode.mk none ("T".data) [] none []))] ++ [])
    ∧ processRequest ("hi".data) none (some ("k".data))
          ⟨Except.ok [], Except.ok ("sum".data), [Except.ok none, Except.ok none]⟩
        = ApiResponse.ok (hierarchyToMindMap ((mergeTopics []).withContent ("sum".data)))
    ∧ (hierarchyToMindMap ((mergeTopics []).withContent ("sum".data))).edges = [] := by
  have hall : ∀ o ∈ (Effects.mk (Except.ok []) (Except.ok ("sum".data))
      [Except.ok none, Except.ok none]).chunkOutcomes, o = Except.ok none := by
    intro o ho
    simp only [Effects.mk.injEq, List.mem_cons, List.not_mem_nil, or_false] at ho
    rcases ho with h | h <;> exact h
  have T := processRequest_parse_failure_policy
    [Except.ok (some (TopicNode.mk none ("T".data) [] none []))] []
    ("hi".data) (some ("k".data))
    ⟨Except.ok [], Except.ok ("sum".data), [Except.ok none, Except.ok none]⟩ ("sum".data)
  exact ⟨T.1, (T.2 (by decide) rfl rfl hall).2.2.1, (T.2 (by decide) rfl rfl hall).2.2.2.2⟩

/-- C9 counterexample: with the credential unconfigured and non-empty
content, the `500` body is `{error: 'Server configuration error',
details: 'API key is not configured'}` with NO `type` field — the claim
that the body carries `error`, `details` and `type` is false here. -/
theorem processRequest_config_error_counterexample :
    processRequest ("hi".data) none none fx0
        = ApiResponse.serverError ("Server configuration error".data)
            ("API key is not configured".data) none
    ∧ responseCarriesType (processRequest ("hi".data) none none fx0) = false := by
  constructor <;> rfl

/-- C9 (amended): when the LLM credential is unconfigured (falsy), a
request with non-empty content is answered `500` before any external
call is attempted — the response does not depend on any external-call
outcome — and the body carries the fields `error` and `details` but no
`type` field. -/
theorem processRequest_config_error (content : Str) (reqType apiKey : Option Str)
    (fx fx2 : Effects) (hc : content ≠ []) (hk : jsTruthy apiKey = false) :
    processRequest content reqType apiKey fx
        = ApiResponse.serverError ("Server configuration error".data)
            ("API key is not configured".data) none
    ∧ processRequest content reqType apiKey fx = processRequest content reqType apiKey fx2
    ∧ responseCarriesType (processRequest content reqType apiKey fx) = false := by
  have key : ∀ g : Effects, processRequest content reqType apiKey g
      = ApiResponse.serverError ("Server configuration error".data)
          ("API key is not configured".data) none := by
    intro g
    rw [processRequest, if_neg (by simp [List.isEmpty_iff, hc]), if_pos (by simp [hk])]
  refine ⟨key fx, (key fx).trans (key fx2).symm, ?_⟩
  rw [key fx]
  rfl

/-- Witness for the amended C9 at concrete inputs. -/
theorem processRequest_config_error_witness :
    ("hi".data ≠ ([] : Str)) ∧ jsTruthy none = false
    ∧ processRequest ("hi".data) none none fx0
        = ApiResponse.serverError ("Server configuration error".data)
            ("API key is not configured".data) none :=
  ⟨by decide, rfl,
    (processRequest_config_error ("hi".data) none none fx0 fx0 (by decide) rfl).1⟩
